import Mathlib

/-!
Shallow embedding of the Manoel-Filmes watch-party server (TypeScript),
covering the room registry, the WebSocket sync-command handler, the chunked
upload pipeline, admission control, host transfer, ratings and range
streaming.  Numbers that are JavaScript `number` values are modelled as `ℚ`
(timestamps as `ℤ` milliseconds); JavaScript `Map`s are association lists in
insertion order; absent / non-number message fields are `Option` values.
-/

namespace ManoelFilmes

/-- JavaScript `Math.round` on a rational: half-up rounding toward positive
infinity, i.e. `⌊q + 1/2⌋`. -/
def jsRound (q : ℚ) : ℤ := ⌊q + 1/2⌋

/-- `src/shared/types.ts` `DiscordUser`: a member stored in a room's
`tokenMap`. -/
structure DiscordUser where
  discordId : String
  username : String
  isHost : Bool
  connected : Bool
  connectedAt : ℤ
  ping : ℚ
  deriving Repr, DecidableEq

/-- The part of `DiscordSession` the core mutates (`hostDiscordId`); the
Discord channel/message ids are opaque to the session engine. -/
structure DiscordSession where
  hostDiscordId : String
  deriving Repr, DecidableEq

/-- `src/shared/types.ts` `SessionRating`. -/
structure SessionRating where
  discordId : String
  username : String
  rating : ℚ
  deriving Repr, DecidableEq

/-- Room lifecycle status. -/
inductive SessionStatus
  | waiting
  | playing
  | ended
  deriving Repr, DecidableEq

/-- `src/shared/types.ts` `RoomState` (the playback/pipeline state). -/
structure RoomState where
  videoPath : String
  currentTime : ℚ
  isPlaying : Bool
  lastUpdate : ℤ
  isUploading : Bool
  uploadProgress : ℤ
  isProcessing : Bool
  processingMessage : String
  hostId : String
  playbackStarted : Bool
  hostLastHeartbeat : ℤ
  lastCommandSeq : ℚ
  subtitles : List (String × String)
  deriving Repr, DecidableEq

/-- `src/shared/types.ts` `Room`.  The live WebSocket set is modelled by its
size (`clients`); `tokenMap` is an association list in insertion order. -/
structure Room where
  id : String
  state : RoomState
  clients : ℕ
  title : String
  movieName : String
  tokenMap : List (String × DiscordUser)
  ratings : List SessionRating
  status : SessionStatus
  discordSession : Option DiscordSession
  deriving Repr, DecidableEq

/-! ## Sync-command handler (`src/api/websocket-handler.ts`) -/

/-- The three host playback commands of the WS protocol. -/
inductive CommandType
  | play
  | pause
  | seek
  deriving Repr, DecidableEq

/-- A host `play`/`pause`/`seek` message: `currentTime` plus an optional
`seq`.  `seq = none` models a message whose `seq` field is absent or not of
JavaScript type `number`. -/
structure Command where
  ctype : CommandType
  currentTime : ℚ
  seq : Option ℚ
  deriving Repr, DecidableEq

/-- `isCommandSeqValid` (websocket-handler): a non-number `seq` is treated as
valid; a numeric `seq` is valid iff strictly greater than the room's
`lastCommandSeq`. -/
def isCommandSeqValid (lastSeq : ℚ) (seq : Option ℚ) : Bool :=
  match seq with
  | none => true
  | some s => decide (s > lastSeq)

/-- The state change performed by `handleWebSocketMessage` for a host
`play`/`pause`/`seek` message (cases of the `switch`), given the server time
`now`: if the seq gate rejects, the state is untouched; otherwise the host
heartbeat is refreshed and `updateState` applies the per-command fields
(`lastUpdate` is set by `updateState` itself), and finally `setLastCommandSeq`
stores the seq when it is numeric. -/
def applyHostCommand (st : RoomState) (c : Command) (now : ℤ) : RoomState :=
  if isCommandSeqValid st.lastCommandSeq c.seq then
    let st1 : RoomState :=
      match c.ctype with
      | CommandType.play =>
          { st with isPlaying := true, currentTime := c.currentTime,
                    lastUpdate := now, playbackStarted := true,
                    hostLastHeartbeat := now }
      | CommandType.pause =>
          { st with isPlaying := false, currentTime := c.currentTime,
                    lastUpdate := now, hostLastHeartbeat := now }
      | CommandType.seek =>
          { st with currentTime := c.currentTime, lastUpdate := now,
                    hostLastHeartbeat := now }
    match c.seq with
    | some s => { st1 with lastCommandSeq := s }
    | none => st1
  else st

/-! ## Upload pipeline (`src/api/routes/upload.ts`) -/

/-- `computeUploadProgress`: `0` when `totalChunks` is falsy, else
`Math.min(99, Math.round(received / totalChunks * 100))`.  `totalChunks` is
the (possibly negative, see `/init`) coerced body value; `received` is the
size of the in-memory received-chunk set. -/
def computeUploadProgress (totalChunks : ℤ) (received : ℕ) : ℤ :=
  if totalChunks = 0 then 0
  else min 99 (jsRound ((received : ℚ) / (totalChunks : ℚ) * 100))

/-- Progress computed by the `GET /status/:roomId/:uploadId` route:
`totalChunks > 0 ? Math.round(existingChunks.length / totalChunks * 100) : 0`
— note there is no 99 cap here. -/
def statusUploadProgress (totalChunks : ℤ) (received : ℕ) : ℤ :=
  if 0 < totalChunks then jsRound ((received : ℚ) / (totalChunks : ℚ) * 100)
  else 0

/-- Outcome of the `POST /init/:roomId` route after the room-existence and
authorization guards. -/
inductive InitResult
  | notFound404
  | validation400
  | ok (purgedPrevious : Bool) (uploadId : String)
  deriving Repr, DecidableEq

/-- `POST /init/:roomId`: `totalChunks`/`chunkSize` are the body values after
`Number(x) || 0` coercion (so `0` stands for zero, missing, or NaN).  The
route rejects with 400 only when one of them is `0`; otherwise it purges any
previous active upload for the room and creates the fresh upload id
`roomId_Date.now()`.  The room's `isProcessing` flag is not consulted. -/
def uploadInit (room : Option Room) (totalChunks chunkSize : ℚ)
    (prevActiveUpload : Option String) (roomId : String) (now : ℤ) :
    InitResult :=
  match room with
  | none => InitResult.notFound404
  | some _ =>
    if totalChunks = 0 ∨ chunkSize = 0 then InitResult.validation400
    else InitResult.ok prevActiveUpload.isSome (roomId ++ "_" ++ toString now)

/-! ## WebSocket upgrade and admission (`src/api/server.ts`,
`src/core/room-manager.ts`) -/

/-- `validateToken`: look the token up in the room's `tokenMap`. -/
def validateToken (room : Room) (token : String) : Option DiscordUser :=
  (room.tokenMap.find? (fun p => p.1 == token)).map Prod.snd

/-- Outcome of the `server.on('upgrade')` handler for `/ws`. -/
inductive UpgradeResult
  | notFound404
  | forbidden403
  | admitted (discordUser : Option DiscordUser)
  deriving Repr, DecidableEq

/-- The `/ws` upgrade handler: `room`/`token` query parameters with `""`
standing for an absent (or empty, both falsy) parameter.  404 when the room
parameter is falsy or names no room; the 403 token check runs only when the
room is Discord-bound *and* a token was supplied. -/
def handleUpgrade (getRoomById : String → Option Room)
    (roomParam token : String) : UpgradeResult :=
  if roomParam = "" then UpgradeResult.notFound404
  else
    match getRoomById roomParam with
    | none => UpgradeResult.notFound404
    | some room =>
      if room.discordSession.isSome ∧ token ≠ "" then
        match validateToken room token with
        | none => UpgradeResult.forbidden403
        | some u => UpgradeResult.admitted (some u)
      else UpgradeResult.admitted none

/-- `estimateBitrate`: `fileStat = some size` when the room's `videoPath` is
non-empty, the file exists and `statSync` succeeds; both the missing-file
branch and the catch branch yield the 15 Mbps default. -/
def estimateBitrate (fileStat : Option ℚ) : ℚ :=
  match fileStat with
  | none => 15
  | some size => max 2 (min (size * 8 / 7200 / 1000000) 50)

/-- `addClient` admission decision: reject when the room already holds 10
clients, or when adding the estimated per-client bitrate would push the room
past 150 Mbps. -/
def addClientAdmitted (clientCount : ℕ) (fileStat : Option ℚ) : Bool :=
  if 10 ≤ clientCount then false
  else
    let est := estimateBitrate fileStat
    if (clientCount : ℚ) * est + est > 150 then false else true

/-- Outcome of the `wss.on('connection')` admission step. -/
inductive ConnectResult
  | admitted (newCount : ℕ)
  | closed (code : ℕ)
  deriving Repr, DecidableEq

/-- `wss.on('connection')`: `addClient` either grows the client set by one or
the socket is closed with code 4003. -/
def wsConnection (clientCount : ℕ) (fileStat : Option ℚ) : ConnectResult :=
  if addClientAdmitted clientCount fileStat then
    ConnectResult.admitted (clientCount + 1)
  else ConnectResult.closed 4003

/-! ## Host inactivity and transfer (`src/core/room-manager.ts`,
`src/api/server.ts`) -/

/-- The `continue` filter of `getOldestConnectedUser`: a member is a transfer
candidate iff connected and not the host. -/
def eligibleForHost (p : String × DiscordUser) : Bool :=
  p.2.connected && !p.2.isHost

/-- One iteration of the `getOldestConnectedUser` loop: keep the accumulator
unless the entry is eligible and strictly older (or the accumulator is still
empty). -/
def oldestStep (acc : Option (String × DiscordUser))
    (p : String × DiscordUser) : Option (String × DiscordUser) :=
  if !eligibleForHost p then acc
  else
    match acc with
    | none => some p
    | some q => if p.2.connectedAt < q.2.connectedAt then some p else acc

/-- `getOldestConnectedUser`: fold the loop over the `tokenMap` in insertion
order. -/
def getOldestConnectedUser (m : List (String × DiscordUser)) :
    Option (String × DiscordUser) :=
  m.foldl oldestStep none

/-- `isHostInactive`: never inactive while uploading; otherwise inactive when
more than 60 s (60000 ms) passed since the last host heartbeat. -/
def isHostInactive (room : Room) (now : ℤ) : Bool :=
  !room.state.isUploading && decide (60000 < now - room.state.hostLastHeartbeat)

/-- `transferHost`: requires a Discord-bound room and an eligible member;
clears `isHost` on every member, sets it on the oldest eligible one, rebinds
`discordSession.hostDiscordId`, resets `hostLastHeartbeat`, and reports the
new host's id and username (the broadcast payload). -/
def transferHost (room : Room) (now : ℤ) :
    Option (Room × String × String) :=
  match room.discordSession with
  | none => none
  | some _ =>
    match getOldestConnectedUser room.tokenMap with
    | none => none
    | some (tok, u) =>
      let newMap := room.tokenMap.map (fun p =>
        if p.1 = tok then (p.1, { p.2 with isHost := true })
        else (p.1, { p.2 with isHost := false }))
      some ({ room with
                tokenMap := newMap,
                discordSession := some { hostDiscordId := u.discordId },
                state := { room.state with hostLastHeartbeat := now } },
            u.discordId, u.username)

/-- Outcome of one room's pass of the 15 s host-check interval. -/
inductive HostCheckOutcome
  | skipped
  | noTransfer
  | transferred (newRoom : Room) (newHostId newHostUsername : String)
  deriving Repr, DecidableEq

/-- Body of the host-check interval for a single room: skip non-Discord,
empty or ended rooms; when the host is inactive attempt a transfer and, on
success, broadcast `host-changed` with the new host's id and username (the
payload carried by the `transferred` outcome). -/
def hostCheckRoom (room : Room) (now : ℤ) : HostCheckOutcome :=
  if room.discordSession.isNone then HostCheckOutcome.skipped
  else if room.clients = 0 then HostCheckOutcome.skipped
  else if room.status = SessionStatus.ended then HostCheckOutcome.skipped
  else if isHostInactive room now then
    match transferHost room now with
    | none => HostCheckOutcome.noTransfer
    | some (r, newId, newName) => HostCheckOutcome.transferred r newId newName
  else HostCheckOutcome.skipped

/-! ## Room creation and membership (`src/core/room-manager.ts`) -/

/-- The fresh `RoomState` built by both room constructors. -/
def initialRoomState (videoPath hostId : String) (now : ℤ) : RoomState :=
  { videoPath := videoPath
    currentTime := 0
    isPlaying := false
    lastUpdate := now
    isUploading := false
    uploadProgress := 0
    isProcessing := false
    processingMessage := ""
    hostId := hostId
    playbackStarted := false
    hostLastHeartbeat := now
    lastCommandSeq := 0
    subtitles := [] }

/-- The room built by `createDiscordSession` (after its singleton-session
guard): the `tokenMap` holds exactly the host member, `isHost = true`,
`connected = false`, `connectedAt = now`, `ping = -1`. -/
def createDiscordSessionRoom (roomId hostToken hostId hostDiscordId
    hostUsername title movieName : String) (now : ℤ) : Room :=
  { id := roomId
    state := initialRoomState "" hostId now
    clients := 0
    title := title
    movieName := movieName
    tokenMap := [(hostToken,
      { discordId := hostDiscordId
        username := hostUsername
        isHost := true
        connected := false
        connectedAt := now
        ping := -1 })]
    ratings := []
    status := SessionStatus.waiting
    discordSession := some { hostDiscordId := hostDiscordId } }

/-- The room built by `createRoom` (non-Discord): empty `tokenMap`, no
Discord session. -/
def createRoomPure (roomId hostId videoPath : String) (now : ℤ) : Room :=
  { id := roomId
    state := initialRoomState videoPath hostId now
    clients := 0
    title := ""
    movieName := ""
    tokenMap := []
    ratings := []
    status := SessionStatus.waiting
    discordSession := none }

/-- `generateUserToken`: `none` for missing/non-Discord rooms; returns the
existing token when the `discordId` is already a member (room unchanged),
else appends a fresh non-host member under `newToken` (the `Map.set`
insertion-order append). -/
def generateUserToken (room : Room) (newToken discordId username : String) :
    Option (String × Room) :=
  match room.discordSession with
  | none => none
  | some _ =>
    match room.tokenMap.find? (fun p => p.2.discordId == discordId) with
    | some p => some (p.1, room)
    | none =>
      some (newToken,
        { room with tokenMap := room.tokenMap ++
            [(newToken,
              { discordId := discordId
                username := username
                isHost := false
                connected := false
                connectedAt := 0
                ping := -1 })] })

/-- Number of members flagged as host. -/
def countHosts (m : List (String × DiscordUser)) : ℕ :=
  (m.filter (fun p => p.2.isHost)).length

/-- The host-uniqueness invariant of the spec, together with the auxiliary
facts it rides on: a Discord-bound room always has members, and token keys
are distinct (tokens are 32 random bytes; `Map` keys are unique). -/
def RoomInv (r : Room) : Prop :=
  (countHosts r.tokenMap = 1 ↔ r.tokenMap ≠ []) ∧
  (r.discordSession.isSome = true → r.tokenMap ≠ []) ∧
  (r.tokenMap.map Prod.fst).Nodup

instance (r : Room) : Decidable (RoomInv r) := by
  unfold RoomInv
  infer_instance

/-! ## Ratings (`src/core/room-manager.ts`) -/

/-- `addRating`: update the first record with this `discordId` in place
(keeping its username), else push a fresh record at the end — the
`findIndex`/`push` upsert written as structural recursion. -/
def addRating (l : List SessionRating) (discordId username : String)
    (rating : ℚ) : List SessionRating :=
  match l with
  | [] => [{ discordId := discordId, username := username, rating := rating }]
  | r :: rest =>
    if r.discordId = discordId then { r with rating := rating } :: rest
    else r :: addRating rest discordId username rating

/-- The `reduce((acc, r) => acc + r.rating, 0)` sum of `getRatings`. -/
def ratingSum (l : List SessionRating) : ℚ :=
  l.foldl (fun acc r => acc + r.rating) 0

/-- The `average` field of `getRatings`: `0` for an empty list, else
`Math.round(sum / length * 10) / 10`. -/
def getRatingsAverage (l : List SessionRating) : ℚ :=
  if l = [] then 0
  else ((jsRound (ratingSum l / (l.length : ℚ) * 10) : ℚ)) / 10

/-- Modelled from the spec's words for comparison: the mean of all stored
ratings, written independently of the code's fold. -/
def specMeanRating (l : List SessionRating) : ℚ :=
  (l.map (fun r => r.rating)).sum / (l.length : ℚ)

/-! ## Range streaming (`src/api/server.ts`, `/video/:roomId`) -/

/-- `Content-Range` header text. -/
def mkContentRange (s e fs : ℤ) : String :=
  "bytes " ++ toString s ++ "-" ++ toString e ++ "/" ++ toString fs

/-- A `/video/:roomId` response: 200 with the whole file, or 206 with the
start/end byte positions, `Content-Length`, `Content-Range`, `Accept-Ranges`
and `Cache-Control` header values. -/
inductive VideoResponse
  | ok200 (contentLength : ℤ)
  | ok206 (startByte endByte contentLength : ℤ)
      (contentRange acceptRanges cacheControl : String)
  deriving Repr, DecidableEq

/-- The `/video/:roomId` handler after the 404 guards: without a `Range`
header stream the whole file with 200; with `Range: bytes=<start>-<end?>`
clamp the end to `Math.min(start + 4 MiB - 1, requestedEnd, fileSize - 1)`
(`requestedEnd` defaulting to `fileSize - 1`) and answer 206. -/
def videoRangeResponse (fileSize : ℤ) (range : Option (ℤ × Option ℤ)) :
    VideoResponse :=
  match range with
  | none => VideoResponse.ok200 fileSize
  | some (start, reqEnd) =>
    let requestedEnd : ℤ :=
      match reqEnd with
      | some e => e
      | none => fileSize - 1
    let endByte : ℤ := min (start + 4194304 - 1) (min requestedEnd (fileSize - 1))
    VideoResponse.ok206 start endByte (endByte - start + 1)
      (mkContentRange start endByte fileSize) "bytes" "no-cache"

/-- Modelled from the claim's words: `end = min(start + 4 MiB − 1,
requestedEnd, fileSize − 1)` with the left-nested three-way minimum. -/
def specRangeEnd (start : ℤ) (requestedEnd : Option ℤ) (fileSize : ℤ) : ℤ :=
  min (min (start + 4194304 - 1)
        (match requestedEnd with
         | some e => e
         | none => fileSize - 1))
    (fileSize - 1)

/-! ## Theorems -/

/-- C1: for a host `play`/`pause`/`seek` message carrying a numeric `seq`,
the command is applied only if `seq` is strictly greater than the room's
`lastCommandSeq`; on acceptance `currentTime` is set to the command's value,
`lastUpdate` to the server's now, `lastCommandSeq` to the command's `seq`
(strictly increasing it), `seek` leaves `isPlaying` unchanged, and a command
with `seq ≤ lastCommandSeq` leaves the room state unchanged. -/
theorem C1_command_seq_gating (st : RoomState) (c : Command) (now : ℤ)
    (s : ℚ) (hs : c.seq = some s) :
    (s ≤ st.lastCommandSeq → applyHostCommand st c now = st) ∧
    (st.lastCommandSeq < s →
      (applyHostCommand st c now).currentTime = c.currentTime ∧
      (applyHostCommand st c now).lastUpdate = now ∧
      (applyHostCommand st c now).lastCommandSeq = s ∧
      st.lastCommandSeq < (applyHostCommand st c now).lastCommandSeq ∧
      (c.ctype = CommandType.seek →
        (applyHostCommand st c now).isPlaying = st.isPlaying) ∧
      (c.ctype = CommandType.play →
        (applyHostCommand st c now).isPlaying = true) ∧
      (c.ctype = CommandType.pause →
        (applyHostCommand st c now).isPlaying = false)) := by
  rcases c with ⟨ct, curT, sq⟩
  cases hs
  constructor
  · intro h
    simp [applyHostCommand, isCommandSeqValid, not_lt.mpr h]
  · intro h
    cases ct <;> simp [applyHostCommand, isCommandSeqValid, h]

/-- Concrete state for the C1 witness: fresh room state with
`lastCommandSeq = 0`. -/
def c1State : RoomState := initialRoomState "" "host" 0

/-- Concrete command for the C1 witness: `play` at `42` with `seq = 5`. -/
def c1Cmd : Command :=
  { ctype := CommandType.play, currentTime := 42, seq := some 5 }

/-- Witness for C1: a `play` with `seq = 5` against `lastCommandSeq = 0` is
accepted and stores `seq`. -/
theorem C1_witness : (applyHostCommand c1State c1Cmd 1000).lastCommandSeq = 5 :=
  ((C1_command_seq_gating c1State c1Cmd 1000 5 rfl).2 (by decide)).2.2.1

/-- C10: a host `play`/`pause`/`seek` message whose `seq` is absent or not a
number is applied regardless of the room's current `lastCommandSeq`, and
leaves `lastCommandSeq` unchanged — bypassing replay protection. -/
theorem C10_missing_seq_bypass (st : RoomState) (c : Command) (now : ℤ)
    (hs : c.seq = none) :
    (applyHostCommand st c now).currentTime = c.currentTime ∧
    (applyHostCommand st c now).lastUpdate = now ∧
    (applyHostCommand st c now).lastCommandSeq = st.lastCommandSeq ∧
    (c.ctype = CommandType.seek →
      (applyHostCommand st c now).isPlaying = st.isPlaying) ∧
    (c.ctype = CommandType.play →
      (applyHostCommand st c now).isPlaying = true) ∧
    (c.ctype = CommandType.pause →
      (applyHostCommand st c now).isPlaying = false) := by
  rcases c with ⟨ct, curT, sq⟩
  cases hs
  cases ct <;> simp [applyHostCommand, isCommandSeqValid]

/-- Concrete state for the C10 witness: `lastCommandSeq` already at 1000. -/
def c10State : RoomState :=
  { initialRoomState "" "host" 0 with lastCommandSeq := 1000 }

/-- Concrete command for the C10 witness: a `pause` without a numeric
`seq`. -/
def c10Cmd : Command :=
  { ctype := CommandType.pause, currentTime := 7, seq := none }

/-- Witness for C10: a seq-less `pause` is applied even though
`lastCommandSeq = 1000`, and `lastCommandSeq` stays 1000. -/
theorem C10_witness :
    (applyHostCommand c10State c10Cmd 500).currentTime = 7 ∧
    (applyHostCommand c10State c10Cmd 500).lastUpdate = 500 ∧
    (applyHostCommand c10State c10Cmd 500).lastCommandSeq = 1000 := by
  have h := C10_missing_seq_bypass c10State c10Cmd 500 rfl
  exact ⟨h.1, h.2.1, h.2.2.1⟩

/-- C2 counterexample: the chunk endpoint rounds (1 of 8 chunks broadcasts
13, not `min(99, ⌊12.5⌋) = 12`), and the status endpoint has no 99 cap — with
all 1 of 1 chunks received but before `complete` it broadcasts 100. -/
theorem C2_counterexample :
    computeUploadProgress 8 1 = 13 ∧
    min 99 ⌊((1 : ℚ) / 8) * 100⌋ = 12 ∧
    statusUploadProgress 1 1 = 100 := by
  refine ⟨?_, ?_, ?_⟩ <;>
    norm_num [computeUploadProgress, statusUploadProgress, jsRound]

/-- C2 (amended): progress broadcast by the chunk and progress endpoints is
`min(99, round(|received| / totalChunks · 100))`, hence never exceeds 99; the
status endpoint instead broadcasts the uncapped rounded percentage, which is
already 100 when every chunk has been received even before a successful
`complete`. -/
theorem C2_amended_progress (total : ℤ) (received : ℕ) :
    computeUploadProgress total received ≤ 99 ∧
    (0 < total → (received : ℤ) = total →
      statusUploadProgress total received = 100) := by
  constructor
  · unfold computeUploadProgress
    split
    · norm_num
    · exact min_le_left _ _
  · intro ht he
    have htq : ((total : ℚ)) ≠ 0 := by
      exact_mod_cast ht.ne.symm
    have hrq : ((received : ℕ) : ℚ) = (total : ℚ) := by
      exact_mod_cast congrArg (fun z : ℤ => (z : ℚ)) he
    unfold statusUploadProgress
    rw [if_pos ht, hrq, div_self htq]
    norm_num [jsRound]

/-- Witness for C2 (amended): with 2 of 2 chunks received the chunk endpoint
stays at or below 99 while the status endpoint reports 100. -/
theorem C2_witness :
    computeUploadProgress 2 2 ≤ 99 ∧ statusUploadProgress 2 2 = 100 :=
  ⟨(C2_amended_progress 2 2).1, (C2_amended_progress 2 2).2 (by decide) rfl⟩

/-- Concrete Discord-bound room for the C3 counterexample and witness. -/
def c3Room : Room :=
  { createDiscordSessionRoom "r1" "tH" "h" "disc-h" "Hosty" "T" "M" 0 with
      clients := 1 }

/-- Room lookup table for the C3 theorems. -/
def c3Lookup : String → Option Room :=
  fun rid => if rid = "r1" then some c3Room else none

/-- C3 counterexample: the room `r1` is Discord-bound, yet an upgrade request
with a missing (empty) token is admitted instead of being rejected with
403. -/
theorem C3_counterexample :
    c3Room.discordSession.isSome = true ∧
    handleUpgrade c3Lookup "r1" "" = UpgradeResult.admitted none := by
  exact ⟨rfl, rfl⟩

/-- C3 (amended): an upgrade naming no existing room is rejected 404; on a
Discord-bound room a *supplied* token that maps to no member is rejected 403,
but a missing token is admitted without a member identity. -/
theorem C3_amended_upgrade (f : String → Option Room) (rp tok : String) :
    ((rp = "" ∨ f rp = none) →
      handleUpgrade f rp tok = UpgradeResult.notFound404) ∧
    (∀ room, f rp = some room → rp ≠ "" →
      (room.discordSession.isSome = true → tok ≠ "" →
        validateToken room tok = none →
        handleUpgrade f rp tok = UpgradeResult.forbidden403) ∧
      (tok = "" →
        handleUpgrade f rp tok = UpgradeResult.admitted none)) := by
  constructor
  · rintro (h | h) <;> simp [handleUpgrade, h]
  · intro room hroom hrp
    constructor
    · intro hds htok hval
      simp [handleUpgrade, hrp, hroom, hds, htok, hval]
    · intro htok
      simp [handleUpgrade, hrp, hroom, htok]

/-- Witness for C3 (amended): an unknown token on the Discord-bound room is
rejected 403, and an unknown room id is rejected 404. -/
theorem C3_witness :
    handleUpgrade c3Lookup "r1" "bad" = UpgradeResult.forbidden403 ∧
    handleUpgrade c3Lookup "nope" "" = UpgradeResult.notFound404 :=
  ⟨((C3_amended_upgrade c3Lookup "r1" "bad").2 c3Room rfl (by decide)).1
      rfl (by decide) (by decide),
    (C3_amended_upgrade c3Lookup "nope" "").1 (Or.inr (by decide))⟩

/-- Concrete room for the C4 counterexample: `isProcessing = true`. -/
def c4Room : Room :=
  { createRoomPure "r" "h" "" 0 with
      state := { initialRoomState "" "h" 0 with isProcessing := true } }

/-- C4 counterexample: with `totalChunks = -1` (non-positive) and the room in
`isProcessing`, upload init neither fails 400 nor 409 — it purges the
previous upload and succeeds with a fresh upload id. -/
theorem C4_counterexample :
    c4Room.state.isProcessing = true ∧
    uploadInit (some c4Room) (-1) 5 (some "u0") "r" 0 =
      InitResult.ok true "r_0" := by
  exact ⟨rfl, by decide⟩

/-- C4 (amended): on an existing, authorized room, upload init fails with a
400 validation error iff the coerced `totalChunks` or `chunkSize` is zero
(zero, missing, or NaN); negative values are accepted, no `isProcessing`
conflict check exists, and otherwise any previous active upload is purged and
a fresh `roomId_now` upload id is created. -/
theorem C4_amended_init (room : Room) (t c : ℚ) (prev : Option String)
    (rid : String) (now : ℤ) :
    (uploadInit (some room) t c prev rid now = InitResult.validation400 ↔
      (t = 0 ∨ c = 0)) ∧
    (t ≠ 0 → c ≠ 0 →
      uploadInit (some room) t c prev rid now =
        InitResult.ok prev.isSome (rid ++ "_" ++ toString now)) := by
  have hdef : uploadInit (some room) t c prev rid now =
      if t = 0 ∨ c = 0 then InitResult.validation400
      else InitResult.ok prev.isSome (rid ++ "_" ++ toString now) := rfl
  rw [hdef]
  constructor
  · by_cases h : t = 0 ∨ c = 0
    · simp [h]
    · simp [h]
  · intro ht hc
    rw [if_neg]
    push_neg
    exact ⟨ht, hc⟩

/-- Witness for C4 (amended): `totalChunks = 3`, `chunkSize = 2` succeeds
with the fresh id and no purge when no upload was active. -/
theorem C4_witness :
    uploadInit (some c4Room) 3 2 none "r" 7 = InitResult.ok false "r_7" :=
  (C4_amended_init c4Room 3 2 none "r" 7).2 (by decide) (by decide)

/-- The admission decision characterized: admitted iff the room holds fewer
than 10 clients and adding one more keeps the bandwidth within 150 Mbps. -/
theorem addClientAdmitted_iff (n : ℕ) (fileStat : Option ℚ) :
    addClientAdmitted n fileStat = true ↔
      (n < 10 ∧ ((n : ℚ) + 1) * estimateBitrate fileStat ≤ 150) := by
  unfold addClientAdmitted
  by_cases h1 : 10 ≤ n
  · simp only [if_pos h1]
    constructor
    · intro h; cases h
    · rintro ⟨hlt, -⟩; omega
  · simp only [if_neg h1]
    by_cases h2 : (n : ℚ) * estimateBitrate fileStat +
        estimateBitrate fileStat > 150
    · simp only [if_pos h2]
      constructor
      · intro h; cases h
      · rintro ⟨-, hle⟩
        have : ((n : ℚ) + 1) * estimateBitrate fileStat =
            (n : ℚ) * estimateBitrate fileStat + estimateBitrate fileStat := by
          ring
        rw [this] at hle
        exact absurd h2 (not_lt.mpr hle)
    · simp only [if_neg h2]
      have heq : ((n : ℚ) + 1) * estimateBitrate fileStat =
          (n : ℚ) * estimateBitrate fileStat + estimateBitrate fileStat := by
        ring
      constructor
      · intro _
        refine ⟨by omega, ?_⟩
        rw [heq]
        exact not_lt.mp h2
      · intro _
        trivial

/-- C6: a WebSocket admission attempt is admitted iff the room has fewer than
10 clients and `(clients + 1) · estimatedBitrate ≤ 150` Mbps, where the
estimated bitrate is `clamp(fileSize·8 / 7200 / 1e6, 2, 50)` when the video
file exists and 15 Mbps otherwise; a rejected socket is closed with code
4003. -/
theorem C6_admission_control (n : ℕ) (fileStat : Option ℚ) :
    (wsConnection n fileStat = ConnectResult.admitted (n + 1) ↔
      (n < 10 ∧ ((n : ℚ) + 1) * estimateBitrate fileStat ≤ 150)) ∧
    (wsConnection n fileStat = ConnectResult.closed 4003 ↔
      ¬(n < 10 ∧ ((n : ℚ) + 1) * estimateBitrate fileStat ≤ 150)) ∧
    (∀ size : ℚ,
      estimateBitrate (some size) = min 50 (max 2 (size * 8 / 7200 / 1000000))) ∧
    estimateBitrate none = 15 := by
  refine ⟨?_, ?_, ?_, rfl⟩
  · rw [← addClientAdmitted_iff]
    unfold wsConnection
    by_cases h : addClientAdmitted n fileStat <;> simp [h]
  · rw [← addClientAdmitted_iff]
    unfold wsConnection
    by_cases h : addClientAdmitted n fileStat <;> simp [h]
  · intro size
    show max 2 (min (size * 8 / 7200 / 1000000) 50) = _
    rw [max_min_distrib_left,
      show max (2 : ℚ) 50 = 50 by norm_num, min_comm]

/-- C8: a `/video/:roomId` request with `Range: bytes=<start>-<end?>` is
answered 206 with `end = min(start + 4 MiB − 1, requestedEnd, fileSize − 1)`
(`requestedEnd` defaulting to `fileSize − 1`), `Content-Range:
bytes start-end/fileSize`, `Content-Length = end − start + 1 ≤ 4 MiB`,
`Accept-Ranges: bytes` and `Cache-Control: no-cache`; a request without
`Range` streams the whole file with 200. -/
theorem C8_range_streaming (fileSize start : ℤ) (reqEnd : Option ℤ) :
    videoRangeResponse fileSize none = VideoResponse.ok200 fileSize ∧
    (∃ e, videoRangeResponse fileSize (some (start, reqEnd)) =
        VideoResponse.ok206 start e (e - start + 1)
          (mkContentRange start e fileSize) "bytes" "no-cache" ∧
      e = specRangeEnd start reqEnd fileSize ∧
      e - start + 1 ≤ 4194304) := by
  refine ⟨rfl, ⟨_, rfl, ?_, ?_⟩⟩
  · unfold specRangeEnd
    rw [min_assoc]
  · have h := min_le_left (start + 4194304 - 1)
      (min (match reqEnd with
            | some e => e
            | none => fileSize - 1) (fileSize - 1))
    omega

/-- If every entry is ineligible, the oldest-member fold keeps its
accumulator. -/
theorem oldestFold_keep (l : List (String × DiscordUser)) :
    ∀ acc, (∀ p ∈ l, eligibleForHost p = false) →
      l.foldl oldestStep acc = acc := by
  induction l with
  | nil => intro acc _; rfl
  | cons p t ih =>
    intro acc h
    have hp : eligibleForHost p = false := h p (List.mem_cons_self p t)
    have hstep : oldestStep acc p = acc := by simp [oldestStep, hp]
    rw [List.foldl_cons, hstep]
    exact ih acc (fun q hq => h q (List.mem_cons_of_mem p hq))

/-- If the oldest-member fold ends empty, it started empty and every entry
was ineligible. -/
theorem oldestFold_none (l : List (String × DiscordUser)) :
    ∀ acc, l.foldl oldestStep acc = none →
      acc = none ∧ ∀ p ∈ l, eligibleForHost p = false := by
  induction l with
  | nil => intro acc h; exact ⟨h, by simp⟩
  | cons p t ih =>
    intro acc h
    rw [List.foldl_cons] at h
    obtain ⟨h1, h2⟩ := ih (oldestStep acc p) h
    cases hp : eligibleForHost p with
    | true =>
      exfalso
      cases acc with
      | none => simp [oldestStep, hp] at h1
      | some q =>
        by_cases hlt : p.2.connectedAt < q.2.connectedAt <;>
          simp [oldestStep, hp, hlt] at h1
    | false =>
      have hstep : oldestStep acc p = acc := by simp [oldestStep, hp]
      rw [hstep] at h1
      refine ⟨h1, ?_⟩
      intro q hq
      rcases List.mem_cons.mp hq with rfl | hq2
      · exact hp
      · exact h2 q hq2

/-- A member produced by the oldest-member fold is the accumulator or an
eligible entry of the list. -/
theorem oldestFold_mem (l : List (String × DiscordUser)) :
    ∀ acc q, l.foldl oldestStep acc = some q →
      acc = some q ∨ (q ∈ l ∧ eligibleForHost q = true) := by
  induction l with
  | nil => intro acc q h; exact Or.inl h
  | cons p t ih =>
    intro acc q h
    rw [List.foldl_cons] at h
    rcases ih (oldestStep acc p) q h with h1 | h2
    · cases hp : eligibleForHost p with
      | false =>
        have hstep : oldestStep acc p = acc := by simp [oldestStep, hp]
        rw [hstep] at h1
        exact Or.inl h1
      | true =>
        cases acc with
        | none =>
          have : p = q := by simpa [oldestStep, hp] using h1
          exact Or.inr ⟨this ▸ List.mem_cons_self p t, this ▸ hp⟩
        | some a =>
          by_cases hlt : p.2.connectedAt < a.2.connectedAt
          · have : p = q := by simpa [oldestStep, hp, hlt] using h1
            exact Or.inr ⟨this ▸ List.mem_cons_self p t, this ▸ hp⟩
          · have : a = q := by simpa [oldestStep, hp, hlt] using h1
            exact Or.inl (by rw [this])
    · exact Or.inr ⟨List.mem_cons_of_mem p h2.1, h2.2⟩

/-- The member produced by the oldest-member fold has a `connectedAt` no
larger than the accumulator's and than any eligible entry's. -/
theorem oldestFold_min (l : List (String × DiscordUser)) :
    ∀ acc q, l.foldl oldestStep acc = some q →
      (∀ a, acc = some a → q.2.connectedAt ≤ a.2.connectedAt) ∧
      (∀ p ∈ l, eligibleForHost p = true →
        q.2.connectedAt ≤ p.2.connectedAt) := by
  induction l with
  | nil =>
    intro acc q h
    simp only [List.foldl_nil] at h
    refine ⟨?_, by simp⟩
    intro a ha
    rw [ha] at h
    cases h
    exact le_refl _
  | cons p t ih =>
    intro acc q h
    rw [List.foldl_cons] at h
    obtain ⟨ihacc, ihlist⟩ := ih (oldestStep acc p) q h
    constructor
    · intro a ha
      cases hp : eligibleForHost p with
      | false =>
        have hstep : oldestStep acc p = acc := by simp [oldestStep, hp]
        exact ihacc a (by rw [hstep, ha])
      | true =>
        by_cases hlt : p.2.connectedAt < a.2.connectedAt
        · have hq := ihacc p (by simp [oldestStep, hp, ha, hlt])
          exact le_trans hq (le_of_lt hlt)
        · exact ihacc a (by simp [oldestStep, hp, ha, hlt])
    · intro r hr hrel
      rcases List.mem_cons.mp hr with rfl | hmem
      · cases hacc : acc with
        | none => exact ihacc r (by simp [oldestStep, hrel, hacc])
        | some a =>
          by_cases hlt : r.2.connectedAt < a.2.connectedAt
          · exact ihacc r (by simp [oldestStep, hrel, hacc, hlt])
          · have h1 := ihacc a (by simp [oldestStep, hrel, hacc, hlt])
            exact le_trans h1 (not_lt.mp hlt)
      · exact ihlist r hmem hrel

/-- `getOldestConnectedUser` returns an eligible member of the map with
minimal `connectedAt` among eligible members. -/
theorem getOldest_spec (m : List (String × DiscordUser)) (tok : String)
    (u : DiscordUser) (h : getOldestConnectedUser m = some (tok, u)) :
    (tok, u) ∈ m ∧ eligibleForHost (tok, u) = true ∧
      ∀ p ∈ m, eligibleForHost p = true → u.connectedAt ≤ p.2.connectedAt := by
  rcases oldestFold_mem m none (tok, u) h with h1 | h2
  · cases h1
  · exact ⟨h2.1, h2.2, fun p hp hel =>
      (oldestFold_min m none (tok, u) h).2 p hp hel⟩

/-- `getOldestConnectedUser` finds someone whenever an eligible member
exists. -/
theorem getOldest_isSome (m : List (String × DiscordUser))
    (p : String × DiscordUser) (hp : p ∈ m)
    (he : eligibleForHost p = true) :
    ∃ q, getOldestConnectedUser m = some q := by
  cases hq : getOldestConnectedUser m with
  | some q => exact ⟨q, rfl⟩
  | none =>
    have := (oldestFold_none m none hq).2 p hp
    rw [he] at this
    cases this

/-- Keys are untouched by the host-transfer remapping of the token map. -/
theorem transferKeys (l : List (String × DiscordUser)) (tok : String) :
    ((l.map (fun p =>
        if p.1 = tok then (p.1, { p.2 with isHost := true })
        else (p.1, { p.2 with isHost := false }))).map Prod.fst) =
      l.map Prod.fst := by
  rw [List.map_map]
  have hfun : (Prod.fst ∘ fun p : String × DiscordUser =>
      if p.1 = tok then (p.1, { p.2 with isHost := true })
      else (p.1, { p.2 with isHost := false })) = Prod.fst := by
    funext p
    by_cases h : p.1 = tok <;> simp [h]
  rw [hfun]

/-- C5: on a Discord-bound, non-ended room with clients, an inactive host
(no heartbeat for over 60 s, no upload in progress) is replaced on the
periodic check by the connected non-host member with the smallest
`connectedAt`: that member alone ends with `isHost = true`, the heartbeat is
reset to now, and the `host-changed` broadcast carries the new host's id and
username; with no connected non-host member, no transfer occurs. -/
theorem C5_host_transfer (room : Room) (now : ℤ)
    (hds : room.discordSession.isSome = true)
    (hcl : room.clients ≠ 0)
    (hst : room.status ≠ SessionStatus.ended)
    (hup : room.state.isUploading = false)
    (hhb : 60000 < now - room.state.hostLastHeartbeat) :
    ((∃ p ∈ room.tokenMap, eligibleForHost p = true) →
      ∃ tok u r,
        getOldestConnectedUser room.tokenMap = some (tok, u) ∧
        u.connected = true ∧ u.isHost = false ∧
        (∀ p ∈ room.tokenMap, eligibleForHost p = true →
          u.connectedAt ≤ p.2.connectedAt) ∧
        hostCheckRoom room now =
          HostCheckOutcome.transferred r u.discordId u.username ∧
        r.state.hostLastHeartbeat = now ∧
        (∀ p ∈ r.tokenMap, p.2.isHost = decide (p.1 = tok)) ∧
        r.tokenMap.map Prod.fst = room.tokenMap.map Prod.fst) ∧
    ((∀ p ∈ room.tokenMap, eligibleForHost p = false) →
      hostCheckRoom room now = HostCheckOutcome.noTransfer) := by
  obtain ⟨ds, hds'⟩ := Option.isSome_iff_exists.mp hds
  have hinact : isHostInactive room now = true := by
    simp [isHostInactive, hup, hhb]
  constructor
  · rintro ⟨p0, hp0mem, hp0el⟩
    obtain ⟨⟨tok, u⟩, hold⟩ :=
      getOldest_isSome room.tokenMap p0 hp0mem hp0el
    obtain ⟨hmem, hel, hmin⟩ := getOldest_spec room.tokenMap tok u hold
    obtain ⟨hconn, hnh⟩ : u.connected = true ∧ u.isHost = false := by
      simpa [eligibleForHost] using hel
    have htr : transferHost room now = some
        ({ room with
            tokenMap := room.tokenMap.map (fun p =>
              if p.1 = tok then (p.1, { p.2 with isHost := true })
              else (p.1, { p.2 with isHost := false })),
            discordSession := some { hostDiscordId := u.discordId },
            state := { room.state with hostLastHeartbeat := now } },
          u.discordId, u.username) := by
      simp only [transferHost, hds', hold]
    have hcheck : hostCheckRoom room now =
        HostCheckOutcome.transferred
          { room with
              tokenMap := room.tokenMap.map (fun p =>
                if p.1 = tok then (p.1, { p.2 with isHost := true })
                else (p.1, { p.2 with isHost := false })),
              discordSession := some { hostDiscordId := u.discordId },
              state := { room.state with hostLastHeartbeat := now } }
          u.discordId u.username := by
      simp only [hostCheckRoom, hds', Option.isNone_some, Bool.false_eq_true,
        if_false, if_neg hcl, if_neg hst, hinact, if_true, htr]
    refine ⟨tok, u, _, hold, hconn, hnh,
      fun p hp he => hmin p hp he, hcheck, rfl, ?_, transferKeys _ _⟩
    intro p hp
    obtain ⟨p0, hp0, rfl⟩ := List.mem_map.mp hp
    by_cases h : p0.1 = tok
    · simp [h]
    · simp [h]
  · intro hall
    have hnone : getOldestConnectedUser room.tokenMap = none :=
      oldestFold_keep room.tokenMap none hall
    have htr : transferHost room now = none := by
      simp only [transferHost, hds', hnone]
    simp only [hostCheckRoom, hds', Option.isNone_some, Bool.false_eq_true,
      if_false, if_neg hcl, if_neg hst, hinact, if_true, htr]

/-- Concrete Discord-bound room for the C5 witness: a silent host plus two
connected viewers, Alice the older one. -/
def c5Room : Room :=
  { createDiscordSessionRoom "r5" "tH" "h5" "dH" "Hosty" "T" "M" 0 with
      clients := 2,
      tokenMap := [
        ("tH", { discordId := "dH", username := "Hosty", isHost := true,
                 connected := false, connectedAt := 0, ping := -1 }),
        ("tA", { discordId := "dA", username := "Alice", isHost := false,
                 connected := true, connectedAt := 3, ping := 20 }),
        ("tB", { discordId := "dB", username := "Bob", isHost := false,
                 connected := true, connectedAt := 9, ping := 30 })] }

/-- Witness for C5: at `now = 70000` (heartbeat at 0) the check promotes
Alice, the oldest connected non-host member. -/
theorem C5_witness :
    ∃ tok u r,
      getOldestConnectedUser c5Room.tokenMap = some (tok, u) ∧
      u.connected = true ∧ u.isHost = false ∧
      (∀ p ∈ c5Room.tokenMap, eligibleForHost p = true →
        u.connectedAt ≤ p.2.connectedAt) ∧
      hostCheckRoom c5Room 70000 =
        HostCheckOutcome.transferred r u.discordId u.username ∧
      r.state.hostLastHeartbeat = 70000 ∧
      (∀ p ∈ r.tokenMap, p.2.isHost = decide (p.1 = tok)) ∧
      r.tokenMap.map Prod.fst = c5Room.tokenMap.map Prod.fst :=
  (C5_host_transfer c5Room 70000 rfl (by decide) (by decide) rfl
    (by decide)).1 (by decide)

/-- Host count of the remapped token map equals the number of entries whose
key is the promoted token. -/
theorem countHosts_map_transfer (l : List (String × DiscordUser))
    (tok : String) :
    countHosts (l.map (fun p =>
      if p.1 = tok then (p.1, { p.2 with isHost := true })
      else (p.1, { p.2 with isHost := false }))) =
      (l.filter (fun p => p.1 == tok)).length := by
  induction l with
  | nil => rfl
  | cons p t ih =>
    by_cases h : p.1 = tok
    · simp only [countHosts, List.map_cons, List.filter_cons] at ih ⊢
      simp [h, ih]
    · simp only [countHosts, List.map_cons, List.filter_cons] at ih ⊢
      simp [h, ih]

/-- With distinct keys, a present key matches exactly one entry. -/
theorem filter_keyEq_length_one (l : List (String × DiscordUser))
    (tok : String) (u : DiscordUser) (hmem : (tok, u) ∈ l)
    (hnd : (l.map Prod.fst).Nodup) :
    (l.filter (fun p => p.1 == tok)).length = 1 := by
  induction l with
  | nil => cases hmem
  | cons p t ih =>
    rw [List.map_cons, List.nodup_cons] at hnd
    rcases List.mem_cons.mp hmem with heq | hmem'
    · have hp : (p.1 == tok) = true := by rw [← heq]; simp
      rw [List.filter_cons, if_pos hp]
      have hrest : t.filter (fun q => q.1 == tok) = [] := by
        rw [List.filter_eq_nil_iff]
        intro q hq hqe
        have hq1 : q.1 = tok := by simpa using hqe
        have : q.1 ∈ t.map Prod.fst := List.mem_map_of_mem Prod.fst hq
        rw [hq1, ← show p.1 = tok by rw [← heq]] at this
        exact hnd.1 this
      simp [hrest]
    · have htok_mem : tok ∈ t.map Prod.fst := by
        have := List.mem_map_of_mem Prod.fst hmem'
        simpa using this
      have hne : (p.1 == tok) = false := by
        refine beq_eq_false_iff_ne.mpr ?_
        intro hcontr
        rw [hcontr] at hnd
        exact hnd.1 htok_mem
      rw [List.filter_cons, if_neg (by simp [hne])]
      exact ih hmem' hnd.2

/-- `transferHost` reestablishes the single-host invariant. -/
theorem transferHost_inv (room : Room) (now : ℤ) (r : Room)
    (newId newName : String) (hinv : RoomInv room)
    (h : transferHost room now = some (r, newId, newName)) : RoomInv r := by
  cases hds : room.discordSession with
  | none => simp [transferHost, hds] at h
  | some ds =>
    cases hold : getOldestConnectedUser room.tokenMap with
    | none => simp [transferHost, hds, hold] at h
    | some pu =>
      obtain ⟨tok, u⟩ := pu
      simp only [transferHost, hds, hold, Option.some.injEq,
        Prod.mk.injEq] at h
      obtain ⟨hr, -, -⟩ := h
      subst hr
      have hmem := (getOldest_spec room.tokenMap tok u hold).1
      have hcount : countHosts (room.tokenMap.map (fun p =>
          if p.1 = tok then (p.1, { p.2 with isHost := true })
          else (p.1, { p.2 with isHost := false }))) = 1 := by
        rw [countHosts_map_transfer]
        exact filter_keyEq_length_one room.tokenMap tok u hmem hinv.2.2
      have hne : (room.tokenMap.map (fun p =>
          if p.1 = tok then (p.1, { p.2 with isHost := true })
          else (p.1, { p.2 with isHost := false }))) ≠ [] := by
        intro hcon
        rw [hcon] at hcount
        simp [countHosts] at hcount
      refine ⟨iff_of_true hcount hne, fun _ => hne, ?_⟩
      rw [transferKeys]
      exact hinv.2.2

/-- Appending a member does not change the host count. -/
theorem countHosts_append_nonhost (l : List (String × DiscordUser))
    (tk : String) (v : DiscordUser) (hv : v.isHost = false) :
    countHosts (l ++ [(tk, v)]) = countHosts l := by
  unfold countHosts
  rw [List.filter_append]
  simp [List.filter, hv]

/-- `generateUserToken` preserves the single-host invariant and only ever
adds non-host members. -/
theorem generateUserToken_inv (room : Room)
    (newToken did uname tok : String) (r : Room) (hinv : RoomInv room)
    (hfresh : newToken ∉ room.tokenMap.map Prod.fst)
    (h : generateUserToken room newToken did uname = some (tok, r)) :
    RoomInv r ∧ (r = room ∨ ∃ v : DiscordUser, v.isHost = false ∧
      r.tokenMap = room.tokenMap ++ [(newToken, v)]) := by
  cases hds : room.discordSession with
  | none => simp [generateUserToken, hds] at h
  | some ds =>
    cases hfind : room.tokenMap.find? (fun p => p.2.discordId == did) with
    | some p =>
      simp only [generateUserToken, hds, hfind, Option.some.injEq,
        Prod.mk.injEq] at h
      obtain ⟨-, hr⟩ := h
      exact ⟨hr ▸ hinv, Or.inl hr.symm⟩
    | none =>
      simp only [generateUserToken, hds, hfind, Option.some.injEq,
        Prod.mk.injEq] at h
      obtain ⟨-, hr⟩ := h
      subst hr
      have hne : room.tokenMap ≠ [] := hinv.2.1 (by rw [hds]; rfl)
      have hcount : countHosts room.tokenMap = 1 := hinv.1.mpr hne
      have happ : countHosts (room.tokenMap ++
          [(newToken, ({ discordId := did, username := uname,
                         isHost := false, connected := false,
                         connectedAt := 0,
                         ping := -1 } : DiscordUser))]) = 1 := by
        rw [countHosts_append_nonhost _ _ _ rfl]
        exact hcount
      have hne2 : room.tokenMap ++
          [(newToken, ({ discordId := did, username := uname,
                         isHost := false, connected := false,
                         connectedAt := 0,
                         ping := -1 } : DiscordUser))] ≠ [] := by
        simp
      refine ⟨⟨iff_of_true happ hne2, fun _ => hne2, ?_⟩,
        Or.inr ⟨_, rfl, rfl⟩⟩
      rw [List.map_append]
      rw [List.nodup_append]
      refine ⟨hinv.2.2, List.nodup_singleton _, ?_⟩
      intro a ha hb
      simp only [List.map_cons, List.map_nil, List.mem_singleton] at hb
      rw [hb] at ha
      exact hfresh ha

/-- C7: a room has exactly one `isHost = true` member iff its token map is
non-empty; this invariant is established by both room constructors and
preserved by `generateUserToken` (which only ever adds non-host members) and
by `transferHost`. -/
theorem C7_single_host_invariant :
    (∀ roomId hostToken hostId hostDiscordId hostUsername title
        movieName : String, ∀ now : ℤ,
      RoomInv (createDiscordSessionRoom roomId hostToken hostId
        hostDiscordId hostUsername title movieName now)) ∧
    (∀ roomId hostId videoPath : String, ∀ now : ℤ,
      RoomInv (createRoomPure roomId hostId videoPath now)) ∧
    (∀ room : Room, ∀ newToken did uname tok : String, ∀ r : Room,
      RoomInv room → newToken ∉ room.tokenMap.map Prod.fst →
      generateUserToken room newToken did uname = some (tok, r) →
      RoomInv r ∧ (r = room ∨ ∃ v : DiscordUser, v.isHost = false ∧
        r.tokenMap = room.tokenMap ++ [(newToken, v)])) ∧
    (∀ room : Room, ∀ now : ℤ, ∀ r : Room, ∀ newId newName : String,
      RoomInv room → transferHost room now = some (r, newId, newName) →
      RoomInv r) := by
  refine ⟨?_, ?_, ?_, ?_⟩
  · intro roomId hostToken hostId hostDiscordId hostUsername title
      movieName now
    refine ⟨iff_of_true rfl (by simp [createDiscordSessionRoom]), ?_, ?_⟩
    · intro _
      simp [createDiscordSessionRoom]
    · simp [createDiscordSessionRoom]
  · intro roomId hostId videoPath now
    refine ⟨iff_of_false (by simp [createRoomPure, countHosts])
      (by simp [createRoomPure]), ?_, ?_⟩
    · intro hcon
      simp [createRoomPure] at hcon
    · simp [createRoomPure]
  · intro room newToken did uname tok r hinv hfresh h
    exact generateUserToken_inv room newToken did uname tok r hinv hfresh h
  · intro room now r newId newName hinv h
    exact transferHost_inv room now r newId newName hinv h

/-- Base Discord-bound room for the C7 witness. -/
def c7Base : Room :=
  createDiscordSessionRoom "r7" "tH" "h7" "dH" "Hosty" "T" "M" 0

/-- Room obtained from `c7Base` by `generateUserToken` with token `t2`. -/
def c7Joined : Room :=
  { c7Base with tokenMap := c7Base.tokenMap ++
      [("t2", { discordId := "d2", username := "u2", isHost := false,
                connected := false, connectedAt := 0, ping := -1 })] }

/-- Room for the C7 transfer witness: silent host plus connected Alice. -/
def c7T : Room :=
  { c7Base with
      clients := 1,
      tokenMap := [
        ("tH", { discordId := "dH", username := "Hosty", isHost := true,
                 connected := false, connectedAt := 0, ping := -1 }),
        ("tA", { discordId := "dA", username := "Alice", isHost := false,
                 connected := true, connectedAt := 3, ping := 20 })] }

/-- Expected result of `transferHost c7T 70000`. -/
def c7TRes : Room :=
  { c7T with
      tokenMap := [
        ("tH", { discordId := "dH", username := "Hosty", isHost := false,
                 connected := false, connectedAt := 0, ping := -1 }),
        ("tA", { discordId := "dA", username := "Alice", isHost := true,
                 connected := true, connectedAt := 3, ping := 20 })],
      discordSession := some { hostDiscordId := "dA" },
      state := { c7T.state with hostLastHeartbeat := 70000 } }

/-- Witness for C7: the invariant holds on both freshly constructed rooms,
after adding a member via `generateUserToken`, and after `transferHost`. -/
theorem C7_witness :
    RoomInv (createDiscordSessionRoom "r7" "tH" "h7" "dH" "Hosty" "T" "M" 0) ∧
    RoomInv (createRoomPure "r7" "h7" "" 0) ∧
    RoomInv c7Joined ∧
    RoomInv c7TRes :=
  ⟨C7_single_host_invariant.1 "r7" "tH" "h7" "dH" "Hosty" "T" "M" 0,
    C7_single_host_invariant.2.1 "r7" "h7" "" 0,
    (C7_single_host_invariant.2.2.1 c7Base "t2" "d2" "u2" "t2" c7Joined
      (by decide) (by decide) (by decide)).1,
    C7_single_host_invariant.2.2.2 c7T 70000 c7TRes "dA" "Alice"
      (by decide) (by decide)⟩

/-- `addRating` keeps exactly one record per id: the match count becomes 1
from 0 and is otherwise preserved. -/
theorem addRating_count (l : List SessionRating) (id u : String) (v : ℚ) :
    ((addRating l id u v).filter (fun r => r.discordId == id)).length =
      max 1 ((l.filter (fun r => r.discordId == id)).length) := by
  induction l with
  | nil => simp [addRating]
  | cons r t ih =>
    by_cases h : r.discordId = id
    · simp only [addRating, if_pos h, List.filter_cons]
      simp [h, Nat.max_eq_left]
    · simp only [addRating, if_neg h, List.filter_cons]
      simp [h, ih]

/-- After `addRating`, when the list held at most one record for the id,
every record for the id carries the new value. -/
theorem addRating_value (l : List SessionRating) (id u : String) (v : ℚ)
    (h : (l.filter (fun r => r.discordId == id)).length ≤ 1) :
    ∀ r ∈ addRating l id u v, r.discordId = id → r.rating = v := by
  induction l with
  | nil =>
    intro r hr hid
    simp only [addRating, List.mem_singleton] at hr
    rw [hr]
  | cons p t ih =>
    intro r hr hid
    by_cases hp : p.discordId = id
    · simp only [addRating, if_pos hp] at hr
      rcases List.mem_cons.mp hr with rfl | hmem
      · rfl
      · exfalso
        rw [List.filter_cons, if_pos (by simp [hp]), List.length_cons] at h
        have hzero : (t.filter (fun q => q.discordId == id)).length = 0 := by
          omega
        have : r ∈ t.filter (fun q => q.discordId == id) :=
          List.mem_filter.mpr ⟨hmem, by simp [hid]⟩
        rw [List.length_eq_zero.mp hzero] at this
        cases this
    · simp only [addRating, if_neg hp] at hr
      rcases List.mem_cons.mp hr with rfl | hmem
      · exact absurd hid hp
      · have ht : (t.filter (fun q => q.discordId == id)).length ≤ 1 := by
          rw [List.filter_cons, if_neg (by simp [hp])] at h
          exact h
        exact ih ht r hmem hid

/-- `addRating` with identical arguments is idempotent. -/
theorem addRating_idem (l : List SessionRating) (id u : String) (v : ℚ) :
    addRating (addRating l id u v) id u v = addRating l id u v := by
  induction l with
  | nil => simp [addRating]
  | cons p t ih =>
    by_cases hp : p.discordId = id
    · simp [addRating, hp]
    · simp [addRating, hp, ih]

/-- `addRating` never returns an empty list. -/
theorem addRating_ne_nil (l : List SessionRating) (id u : String) (v : ℚ) :
    addRating l id u v ≠ [] := by
  cases l with
  | nil => simp [addRating]
  | cons p t =>
    by_cases hp : p.discordId = id <;> simp [addRating, hp]

/-- The code's fold equals the spec's sum of ratings. -/
theorem ratingSum_eq_map_sum (l : List SessionRating) :
    ratingSum l = (l.map (fun r => r.rating)).sum := by
  have key : ∀ a : ℚ, l.foldl (fun acc r => acc + r.rating) a =
      a + (l.map (fun r => r.rating)).sum := by
    induction l with
    | nil => intro a; simp
    | cons r t ih =>
      intro a
      simp only [List.foldl_cons, List.map_cons, List.sum_cons, ih,
        add_assoc]
  simpa [ratingSum] using key 0

/-- The reported average of a non-empty rating list is the rounded mean. -/
theorem getRatingsAverage_spec (l : List SessionRating) (h : l ≠ []) :
    getRatingsAverage l = ((jsRound (specMeanRating l * 10) : ℚ)) / 10 := by
  unfold getRatingsAverage specMeanRating
  rw [if_neg h, ratingSum_eq_map_sum]

/-- C9: `addRating` is an idempotent upsert keyed by `discordId`: after
`addRating (addRating l id u v) id u' v'` exactly one record for `id`
remains and it carries `v'`; re-adding the same rating is a no-op; and
`getRatings` reports the average `round(mean · 10) / 10` of the stored
ratings. -/
theorem C9_rating_upsert (l : List SessionRating) (id u u' : String)
    (v v' : ℚ)
    (hdup : (l.filter (fun r => r.discordId == id)).length ≤ 1) :
    ((addRating (addRating l id u v) id u' v').filter
        (fun r => r.discordId == id)).length = 1 ∧
    (∀ r ∈ addRating (addRating l id u v) id u' v',
      r.discordId = id → r.rating = v') ∧
    addRating (addRating l id u v) id u v = addRating l id u v ∧
    addRating (addRating l id u v) id u' v' ≠ [] ∧
    getRatingsAverage (addRating (addRating l id u v) id u' v') =
      ((jsRound (specMeanRating
        (addRating (addRating l id u v) id u' v') * 10) : ℚ)) / 10 := by
  have hcount1 :
      ((addRating l id u v).filter (fun r => r.discordId == id)).length = 1 := by
    rw [addRating_count]
    omega
  refine ⟨?_, ?_, addRating_idem l id u v, addRating_ne_nil _ id u' v',
    getRatingsAverage_spec _ (addRating_ne_nil _ id u' v')⟩
  · rw [addRating_count, hcount1]
    exact max_self 1
  · exact addRating_value (addRating l id u v) id u' v' (le_of_eq hcount1)

/-- Witness for C9: Bea rates 3 then 9 on a list already holding Ana's 7. -/
theorem C9_witness :
    ((addRating (addRating [⟨"a", "Ana", 7⟩] "b" "Bea" 3) "b" "Bea" 9).filter
        (fun r => r.discordId == "b")).length = 1 ∧
    (∀ r ∈ addRating (addRating [⟨"a", "Ana", 7⟩] "b" "Bea" 3) "b" "Bea" 9,
      r.discordId = "b" → r.rating = 9) ∧
    addRating (addRating [⟨"a", "Ana", 7⟩] "b" "Bea" 3) "b" "Bea" 3 =
      addRating [⟨"a", "Ana", 7⟩] "b" "Bea" 3 ∧
    addRating (addRating [⟨"a", "Ana", 7⟩] "b" "Bea" 3) "b" "Bea" 9 ≠ [] ∧
    getRatingsAverage
        (addRating (addRating [⟨"a", "Ana", 7⟩] "b" "Bea" 3) "b" "Bea" 9) =
      ((jsRound (specMeanRating
        (addRating (addRating [⟨"a", "Ana", 7⟩] "b" "Bea" 3) "b" "Bea" 9)
          * 10) : ℚ)) / 10 :=
  C9_rating_upsert [⟨"a", "Ana", 7⟩] "b" "Bea" "Bea" 3 9 (by decide)

end ManoelFilmes
